import Mathlib

/-!
Verification development for the incremental ingestion and retrieval
pipeline of the Projet_final_PSTB repository.

Python strings are embedded as `List Char`.  External collaborators
(the `json` module, `hashlib`, Python's builtin salted `hash`, the
embedding / reranker / LLM providers and the Qdrant client) are passed
in as explicit function parameters, so that theorems quantify over
every behaviour those black boxes can exhibit.
-/

/-! ## Python string primitives -/

/-- The whitespace characters stripped by Python's `str.strip()`
(ASCII subset; the source never strips other Unicode whitespace). -/
def isPyWs (c : Char) : Bool :=
  c = ' ' || c = '\t' || c = '\n' || c = '\r' || c = '\x0b' || c = '\x0c'

/-- Python `str.strip()`. -/
def pyStrip (l : List Char) : List Char :=
  ((l.dropWhile isPyWs).reverse.dropWhile isPyWs).reverse

/-- Python `s.split('\n')`: split on every newline, keeping empty pieces. -/
def splitNl (l : List Char) : List (List Char) :=
  match l with
  | [] => [[]]
  | c :: rest =>
    let r := splitNl rest
    if c = '\n' then [] :: r
    else match r with
         | [] => [[c]]
         | p :: ps => (c :: p) :: ps

/-- Python `'\n'.join(lines)`. -/
def joinNl : List (List Char) → List Char
  | [] => []
  | [p] => p
  | p :: ps => p ++ '\n' :: joinNl ps

/-- Python `s.startswith(p)`. -/
def beginsWith (p l : List Char) : Bool :=
  l.take p.length == p

/-- Python `p in s` for strings: contiguous substring test. -/
def containsSub (p : List Char) : List Char → Bool
  | [] => p.isEmpty
  | c :: t => beginsWith p (c :: t) || containsSub p t

/-- Python `c in s` for a single character. -/
def containsChar (c : Char) (l : List Char) : Bool :=
  l.any (· = c)

/-- Python `str.lower()` restricted to ASCII letters and the Latin-1
uppercase letters (the only letters occurring in the French phrases and
answers handled by the parser). -/
def pyLowerChar (c : Char) : Char :=
  let n := c.toNat
  if 65 ≤ n ∧ n ≤ 90 then Char.ofNat (n + 32)
  else if 192 ≤ n ∧ n ≤ 222 ∧ n ≠ 215 then Char.ofNat (n + 32)
  else c

def pyLower (l : List Char) : List Char := l.map pyLowerChar

/-- Python `s.replace('\n', ' ')`. -/
def replaceNlBySpace (l : List Char) : List Char :=
  l.map (fun c => if c = '\n' then ' ' else c)

/-- Python `s.find(c)`: index of first occurrence, `none` for `-1`. -/
def findIdxChar (c : Char) (l : List Char) : Option Nat :=
  l.findIdx? (· = c)

/-- Python `s.rfind(c)`: index of last occurrence, `none` for `-1`. -/
def rfindIdxChar (c : Char) : List Char → Option Nat
  | [] => none
  | x :: t =>
    match rfindIdxChar c t with
    | some j => some (j + 1)
    | none => if x = c then some 0 else none

/-- Python slice `s[a:b]` for non-negative bounds. -/
def sliceNat (l : List Char) (a b : Nat) : List Char :=
  (l.take b).drop a

/-- Python slice `s[a:b]` with full Python semantics for possibly
negative bounds: a negative index counts from the end and is clamped
at zero. -/
def pySlice (l : List Char) (a b : Int) : List Char :=
  let n : Int := l.length
  let a' : Nat := (if a < 0 then max 0 (n + a) else min a n).toNat
  let b' : Nat := (if b < 0 then max 0 (n + b) else min b n).toNat
  sliceNat l a' b'

/-! ## JSON values and Python dynamic operations

`Json` models the values `json.loads` can produce.  Numbers are
modelled as integers: no claim depends on fractional literals. -/

inductive Json where
  | null : Json
  | bool (b : Bool) : Json
  | num (n : Int) : Json
  | str (s : List Char) : Json
  | arr (l : List Json) : Json
  | obj (kvs : List (List Char × Json)) : Json
deriving BEq, Repr

/-- Exceptions that can escape the embedded Python functions. -/
inductive PyErr where
  | typeError : PyErr
  | attributeError : PyErr
  | keyError : PyErr
deriving BEq, Repr, DecidableEq

/-- Python dict lookup (`d[k]` / `d.get(k)`): the binding that wins is
the textually last one, as for dicts built by `json.loads`. -/
def dictGet : List (List Char × Json) → List Char → Option Json
  | [], _ => none
  | kv :: rest, k =>
    match dictGet rest k with
    | some v => some v
    | none => if kv.1 == k then some kv.2 else none

/-- Python dict key test. -/
def hasKey (kvs : List (List Char × Json)) (k : List Char) : Bool :=
  kvs.any (fun kv => kv.1 == k)

/-- Python `d[k] = v`: replace in place if present, append otherwise. -/
def setKey (kvs : List (List Char × Json)) (k : List Char) (v : Json) :
    List (List Char × Json) :=
  if hasKey kvs k then kvs.map (fun kv => if kv.1 == k then (k, v) else kv)
  else kvs ++ [(k, v)]

/-- Python `key in value` on an arbitrary value: key test on dicts,
substring test on strings, membership on lists; a `TypeError` on
non-iterable values (numbers, booleans, `None`). -/
def pyIn (key : List Char) : Json → Except PyErr Bool
  | .obj kvs => .ok (hasKey kvs key)
  | .str s => .ok (containsSub key s)
  | .arr l => .ok (l.any (fun j => j == Json.str key))
  | .num _ => .error .typeError
  | .bool _ => .error .typeError
  | .null => .error .typeError

/-- Python truthiness of a JSON-shaped value. -/
def pyTruthy : Json → Bool
  | .null => false
  | .bool b => b
  | .num n => n != 0
  | .str s => !s.isEmpty
  | .arr l => !l.isEmpty
  | .obj kvs => !kvs.isEmpty

/-! ## Structured-response parser
Embedding of `BaseLLMManager._parse_and_validate_response`
(`src/rag_qdrant/base_llm_manager.py`, lines 105-184).  `json.loads` is
external (Python stdlib); it is passed in as a parameter
`loads : List Char → Option Json`, `none` standing for a
`json.JSONDecodeError`. -/

def answerKey : List Char := ("answer").toList
def citationsKey : List Char := ("citations").toList
def claimsKey : List Char := ("claims").toList
def textKey : List Char := ("text").toList
def fenceMark : List Char := ("\x60\x60\x60").toList

/-- The fixed French negative-finding phrase list (`no_info_phrases`). -/
def noInfoPhrases : List (List Char) :=
  [("il n\x27y a pas d\x27information").toList,
   ("aucune information").toList,
   ("pas d\x27information sur").toList,
   ("ne contient pas d\x27information").toList,
   ("n\x27est pas mentionné").toList,
   ("pas de mention").toList,
   ("contexte ne contient pas").toList,
   ("documents ne contiennent pas").toList,
   ("je ne trouve pas d\x27information").toList,
   ("il n\x27existe pas d\x27indication").toList,
   ("aucune indication").toList,
   ("pas d\x27indication sur").toList,
   ("ne présente pas d\x27information").toList,
   ("n\x27indique pas").toList,
   ("pas précisé").toList,
   ("non mentionné").toList,
   ("absent des documents").toList]

/-- Markdown-fence filtering loop: keeps a line when the running
`in_json_block` flag is set or the line visibly contains JSON
punctuation; a line starting with three backticks toggles the flag and
is dropped. -/
def fenceFilter (inBlock : Bool) : List (List Char) → List (List Char)
  | [] => []
  | line :: rest =>
    if beginsWith fenceMark line then fenceFilter (!inBlock) rest
    else if inBlock || (containsChar '\x7b' line || containsChar '\x7d' line
        || containsChar '\x22' line) then
      line :: fenceFilter inBlock rest
    else fenceFilter inBlock rest

/-- Cleaning stage of `_parse_and_validate_response`: markdown-fence
stripping, `strip()`, then slicing from the first opening brace to the
last closing brace when both exist in that order. -/
def cleanResponse (raw : List Char) : List Char :=
  let c0 := if containsSub fenceMark raw
    then pyStrip (joinNl (fenceFilter false (splitNl raw)))
    else raw
  let c1 := pyStrip c0
  match findIdxChar '\x7b' c1, rfindIdxChar '\x7d' c1 with
  | some s, some e => if s < e then sliceNat c1 s (e + 1) else c1
  | _, _ => c1

/-- The degenerate fallback structure built from the raw text on a
caught parse/validation failure. -/
def fallbackResponse (raw : List Char) : Json :=
  let cleanText := pyStrip (replaceNlBySpace raw)
  Json.obj [(answerKey, Json.str cleanText),
            (citationsKey, Json.arr []),
            (claimsKey, Json.arr [Json.obj [(textKey, Json.str cleanText),
                                            (citationsKey, Json.arr [])]])]

/-- Python `all(key in parsed_response for key in required_keys)`:
short-circuiting, and propagating the `TypeError` that `in` raises on
non-iterable values. -/
def allKeysCheck (j : Json) : Except PyErr Bool :=
  match pyIn answerKey j with
  | .error e => .error e
  | .ok false => .ok false
  | .ok true =>
    match pyIn citationsKey j with
    | .error e => .error e
    | .ok false => .ok false
    | .ok true => pyIn claimsKey j

/-- `BaseLLMManager._parse_and_validate_response`.  The inner
`try/except` catches only `json.JSONDecodeError` and `ValueError`
(both mapped to the fallback structure); any other exception escapes
as `.error`. -/
def parseAndValidateResponse (loads : List Char → Option Json)
    (raw : List Char) : Except PyErr Json :=
  let cleaned := cleanResponse raw
  match loads cleaned with
  | none => .ok (fallbackResponse raw)
  | some parsed =>
    match allKeysCheck parsed with
    | .error e => .error e
    | .ok false => .ok (fallbackResponse raw)
    | .ok true =>
      match parsed with
      | Json.obj kvs =>
        match (dictGet kvs answerKey).getD (Json.str []) with
        | Json.str a =>
          let answer := pyLower a
          if noInfoPhrases.any (fun p => containsSub p answer) then
            .ok (Json.obj (setKey (setKey kvs citationsKey (Json.arr []))
                  claimsKey (Json.arr [])))
          else .ok (Json.obj kvs)
        | _ => .error .attributeError
      | _ => .error .attributeError

/-- `BaseLLMManager.generate_response`: availability gate, then the
parser behind a broad `except Exception` that converts any escaped
exception into an error dictionary with empty citations and claims.
The prompt construction and the raw LLM call are external; the raw
completion arrives as `rawRes` (`.error` for a provider exception),
and `name` stands for the concrete manager class name. -/
def generateResponse (loads : List Char → Option Json) (avail : Bool)
    (rawRes : Except PyErr (List Char)) (name : List Char) : Json :=
  if !avail then
    Json.obj [(answerKey, Json.str (name ++ (" non disponible").toList)),
              (citationsKey, Json.arr []),
              (claimsKey, Json.arr []),
              (("error").toList, Json.str (name ++ (" non configuré").toList))]
  else
    match rawRes with
    | .error _ =>
      Json.obj [(answerKey, Json.str (("Erreur lors de la génération").toList)),
                (citationsKey, Json.arr []),
                (claimsKey, Json.arr []),
                (("error").toList, Json.str [])]
    | .ok raw =>
      match parseAndValidateResponse loads raw with
      | .ok j => j
      | .error _ =>
        Json.obj [(answerKey, Json.str (("Erreur lors de la génération").toList)),
                  (citationsKey, Json.arr []),
                  (claimsKey, Json.arr []),
                  (("error").toList, Json.str [])]

/-! ## Chunker
Embedding of `DocumentChunk.create` (`src/rag_qdrant/schemas.py`, lines
21-34) and `DocumentProcessor.create_chunks`
(`src/rag_qdrant/document_processor.py`, lines 76-128). -/

/-- Python `f"{n}"` for an int. -/
def intStr (n : Int) : List Char := (toString n).toList

structure DocumentChunk where
  content : List Char
  doc_id : List Char
  page : Int
  chunk_id : List Char
  file_path : List Char
  file_hash : List Char
  created_at : List Char
  embedding : Option (List ℚ) := none
deriving BEq, Repr

/-- `DocumentChunk.create`: strips the content and derives
`chunk_id = f"{doc_id}_p{page}_c{chunk_num}"`.  `created_at` is
`datetime.now().isoformat()`, an external clock value passed as `now`. -/
def DocumentChunk.create (content docId : List Char) (page chunkNum : Int)
    (filePath fileHash now : List Char) : DocumentChunk :=
  { content := pyStrip content
    doc_id := docId
    page := page
    chunk_id := docId ++ ("_p").toList ++ intStr page ++ ("_c").toList
      ++ intStr chunkNum
    file_path := filePath
    file_hash := fileHash
    created_at := now }

/-- One window boundary decision of the `create_chunks` loop: the raw
cut is `min(start + chunk_size, len(text))`; when the window is not the
final one, is longer than 100 characters, and its last space sits
strictly past 80% of the window, the cut backtracks to that space.
The float test `last_space > len(chunk_text) * 0.8` is rendered as
`4 * len < 5 * last_space`, which agrees with the IEEE-double
evaluation for every window length the loop can produce. -/
def windowCut (size : Int) (text : List Char) (start : Int) :
    Int × List Char :=
  let e0 : Int := min (start + size) (text.length : Int)
  let ct0 := pySlice text start e0
  if e0 < (text.length : Int) ∧ 100 < ct0.length then
    match rfindIdxChar ' ' ct0 with
    | some j =>
      if 4 * ct0.length < 5 * j then ((start + (j : Int)), pySlice text start (start + (j : Int)))
      else (e0, ct0)
    | none => (e0, ct0)
  else (e0, ct0)

/-- The `while start < text_length` loop of `create_chunks`.  `chunkNum`
starts at 1; after emitting a chunk the loop breaks as soon as
`chunk_num > 1000`, which is the source's infinite-loop guard and the
measure that makes this recursion terminate. -/
def chunkLoop (size overlap : Int) (text docId : List Char) (page : Int)
    (filePath fileHash now : List Char) (chunkNum : Nat) (start : Int) :
    List DocumentChunk :=
  if start < (text.length : Int) then
    let cut := windowCut size text start
    let chunk := DocumentChunk.create cut.2 docId page (chunkNum : Int)
      filePath fileHash now
    let start' := if cut.1 < (text.length : Int) then cut.1 - overlap else cut.1
    if h : chunkNum + 1 > 1000 then [chunk]
    else chunk :: chunkLoop size overlap text docId page filePath fileHash now
      (chunkNum + 1) start'
  else []
termination_by 1001 - chunkNum
decreasing_by omega

/-- `DocumentProcessor.create_chunks`: a single chunk when the text fits
in one window, otherwise the overlapping-window loop. -/
def createChunks (size overlap : Int) (text docId : List Char) (page : Int)
    (filePath fileHash now : List Char) : List DocumentChunk :=
  if (text.length : Int) ≤ size then
    [DocumentChunk.create text docId page 1 filePath fileHash now]
  else
    chunkLoop size overlap text docId page filePath fileHash now 1 0

/-! ## Vector store adapter
Embedding of `QdrantManager.store_chunks` and
`QdrantManager.search_similar` (`src/rag_qdrant/qdrant_manager.py`).
Python's builtin salted string hash is a parameter
`pyHash : List Char → Int`; the Qdrant engine is external, so its
filtered search is modelled from the spec (exact-match on one id,
any-of on a set, cosine scores provided by a scoring oracle, results
in descending score order). -/

structure PointStruct where
  id : Int
  vector : List ℚ
  content : List Char
  doc_id : List Char
  page : Int
  chunk_id : List Char
  file_path : List Char
  file_hash : List Char
  created_at : List Char
deriving BEq, Repr

/-- The point built by `store_chunks`:
`id = hash(chunk.chunk_id) % (2**63 - 1)` with the payload copied from
the chunk. -/
def mkStorePoint (pyHash : List Char → Int) (c : DocumentChunk)
    (v : List ℚ) : PointStruct :=
  { id := (pyHash c.chunk_id) % (2 ^ 63 - 1)
    vector := v
    content := c.content
    doc_id := c.doc_id
    page := c.page
    chunk_id := c.chunk_id
    file_path := c.file_path
    file_hash := c.file_hash
    created_at := c.created_at }

/-- `QdrantManager.store_chunks`.  Returns the boolean result paired
with the single upsert call it issued (`none` when the client was
never contacted).  `upsertOk = false` stands for the client raising,
which the source catches and converts to `False`.  The guard
`if not chunk.embedding` skips both `None` and empty embeddings. -/
def storeChunks (pyHash : List Char → Int) (upsertOk : Bool)
    (chunks : List DocumentChunk) : Bool × Option (List PointStruct) :=
  if chunks.isEmpty then (true, none)
  else
    let points := chunks.filterMap (fun c =>
      match c.embedding with
      | none => none
      | some [] => none
      | some v => some (mkStorePoint pyHash c v))
    if points.isEmpty then (false, none)
    else if upsertOk then (true, some points) else (false, some points)

/-- The `doc_ids` argument of `search_similar`: `None`, one string, or
a list of strings. -/
inductive DocIdsArg where
  | noneArg : DocIdsArg
  | strArg (s : List Char) : DocIdsArg
  | listArg (l : List (List Char)) : DocIdsArg
deriving BEq, Repr

/-- Python truthiness of the `doc_ids` argument. -/
def docIdsTruthy : DocIdsArg → Bool
  | .noneArg => false
  | .strArg s => !s.isEmpty
  | .listArg l => !l.isEmpty

/-- The Qdrant filter built by `search_similar`. -/
inductive QFilter where
  | noFilter : QFilter
  | matchValue (v : List Char) : QFilter
  | matchAny (vs : List (List Char)) : QFilter
deriving BEq, Repr

/-- Filter construction of `search_similar`: only a truthy argument
installs a filter; a string yields `MatchValue`, a non-empty list
yields `MatchAny`. -/
def buildSearchFilter (a : DocIdsArg) : QFilter :=
  if docIdsTruthy a then
    match a with
    | .strArg s => .matchValue s
    | .listArg l => if 0 < l.length then .matchAny l else .noFilter
    | .noneArg => .noFilter
  else .noFilter

/-- Modelled from the spec: the Qdrant engine's filter semantics
(external library) — `MatchValue` keeps points whose `doc_id` payload
equals the value, `MatchAny` keeps points whose `doc_id` is in the
set, no filter keeps everything. -/
def matchesFilter (f : QFilter) (p : PointStruct) : Bool :=
  match f with
  | .noFilter => true
  | .matchValue v => p.doc_id == v
  | .matchAny vs => vs.any (fun v => v == p.doc_id)

/-- Stable descending insertion by a rational key. -/
def insertByDesc (key : α → ℚ) (x : α) : List α → List α
  | [] => [x]
  | y :: ys => if key y < key x then x :: y :: ys else y :: insertByDesc key x ys

def sortByDesc (key : α → ℚ) (l : List α) : List α :=
  l.foldr (insertByDesc key) []

/-- Modelled from the spec: a Qdrant similarity search over the stored
points — filter, order by descending score (the scoring oracle stands
for cosine similarity against the query vector), truncate to `limit`. -/
def qdrantEngineSearch (store : List PointStruct) (score : PointStruct → ℚ)
    (f : QFilter) (limit : Nat) : List PointStruct :=
  (sortByDesc score (store.filter (matchesFilter f))).take limit

/-- One formatted result dict of `search_similar`. -/
structure SearchHit where
  content : List Char
  doc_id : List Char
  page : Int
  chunk_id : List Char
  score : ℚ
  metadata : PointStruct
deriving BEq, Repr

/-- `QdrantManager.search_similar`: build the filter from `doc_ids`,
run the engine search, format the results. -/
def searchSimilar (store : List PointStruct) (score : PointStruct → ℚ)
    (limit : Nat) (docIds : DocIdsArg) : List SearchHit :=
  let results := qdrantEngineSearch store score (buildSearchFilter docIds) limit
  results.map (fun r =>
    { content := r.content, doc_id := r.doc_id, page := r.page
      chunk_id := r.chunk_id, score := score r, metadata := r })

/-- The methods defined by the `QdrantManager` class
(`src/rag_qdrant/qdrant_manager.py`): the attribute set used to model
Python attribute lookup on a manager instance. -/
def qdrantManagerMethods : List (List Char) :=
  [("__init__").toList, ("_connect").toList, ("is_available").toList,
   ("_ensure_collection").toList, ("check_document_exists").toList,
   ("store_chunks").toList, ("search_similar").toList,
   ("get_collection_info").toList, ("list_documents").toList,
   ("clear_collection").toList]

/-- `RAGPipeline.delete_document` (`src/rag_qdrant/pipeline.py`, lines
250-252): `return self.qdrant_manager.delete_document(doc_id)`.
Attribute lookup on the manager raises `AttributeError` when the name
is not among the class's methods; `impl` stands for the body the
method would have if it existed. -/
def pipelineDeleteDocument (impl : List Char → Bool) (docId : List Char) :
    Except PyErr Bool :=
  if ("delete_document").toList ∈ qdrantManagerMethods then .ok (impl docId)
  else .error .attributeError

/-! ## Incremental ingester
Embedding of `IncrementalQdrantIngester` (`src/incremental_ingest.py`):
chunk fingerprints (`_generate_chunk_hash`, an `md5` hex digest of
`content|source|page`), stable point ids (`_generate_point_id`), and
the dedup-and-upsert loop of `process_document_incremental`.
`hashlib.md5` is external and deterministic: it is a fixed parameter
`md5hex`.  Python's builtin `hash` on strings is salted per process
(`PYTHONHASHSEED`), so it is a parameter `pyHash` that differs between
two runs of the program. -/

/-- `Path(p).stem`: final path component without its suffix. -/
def pathStem (p : List Char) : List Char :=
  let name := match rfindIdxChar '/' p with
    | some i => p.drop (i + 1)
    | none => p
  match rfindIdxChar '.' name with
  | some i => if i = 0 then name else name.take i
  | none => name

/-- `_generate_chunk_hash`: md5 hex digest of
`f"{content}|{source}|{page}"`. -/
def generateChunkHash (md5hex : List Char → List Char)
    (content source : List Char) (page : Int) : List Char :=
  md5hex (content ++ ("|").toList ++ source ++ ("|").toList ++ intStr page)

/-- `_generate_point_id`:
`abs(hash(f"{stem}_p{page}_c{idx}_{chunk_hash[:8]}")) % (2**31 - 1)`. -/
def generatePointId (pyHash : List Char → Int) (docPath : List Char)
    (page chunkIdx : Int) (chunkHash : List Char) : Int :=
  let idString := pathStem docPath ++ ("_p").toList ++ intStr page
    ++ ("_c").toList ++ intStr chunkIdx ++ ("_").toList ++ chunkHash.take 8
  ((pyHash idString).natAbs : Int) % (2 ^ 31 - 1)

/-- One chunk of one page, as enumerated by the ingestion loop. -/
structure PageChunk where
  page : Int
  idx : Int
  content : List Char
deriving BEq, Repr

/-- The `(page_idx, chunk_idx)` double enumeration of
`process_document_incremental`, with the page splitter (the external
LangChain `RecursiveCharacterTextSplitter.split_text`) as a parameter. -/
def enumeratePageChunks (splitText : List Char → List (List Char))
    (pages : List (List Char)) : List PageChunk :=
  (pages.enum.map (fun pe =>
    ((splitText pe.2).enum.map (fun ce =>
      PageChunk.mk ((pe.1 : Int) + 1) (ce.1 : Int) ce.2)))).flatten

/-- Observable actions of the ingestion loop, in order. -/
inductive IngestEvent where
  | skip (h : List Char)
  | embed (h : List Char)
  | upsert (pid : Int) (h : List Char)
  | upsertFail (pid : Int) (h : List Char)
  | add (h : List Char)
deriving BEq, Repr, DecidableEq

inductive IngestStatus where
  | success : IngestStatus
  | noPages : IngestStatus
  | err : IngestStatus
deriving BEq, Repr, DecidableEq

/-- The result dict of `process_document_incremental` together with the
surviving `processed_hashes` set and the event trace. -/
structure IngestOut where
  status : IngestStatus
  chunksAdded : Nat
  chunksSkipped : Nat
  hashes : List (List Char)
  events : List IngestEvent
deriving BEq, Repr

/-- The per-chunk loop of `process_document_incremental`: skip when the
fingerprint is in the dedup set; otherwise compute the point id, embed
(`embeddings.embed_query`, oracle `embedRes`, `.error` for a raised
exception), upsert (oracle `upsertOk`, `false` for a client exception)
and only then add the fingerprint to the set.  A raised exception
aborts the loop and surfaces as the error dict, which reports
`chunks_added = 0`; fingerprints added before the failure stay in the
instance's set. -/
def ingestLoop (md5hex : List Char → List Char) (pyHash : List Char → Int)
    (embedRes : List Char → Except PyErr (List ℚ))
    (upsertOk : List Char → Bool) (source : List Char) :
    List PageChunk → List (List Char) → Nat → Nat → IngestOut
  | [], hs, a, s => ⟨.success, a, s, hs, []⟩
  | c :: rest, hs, a, s =>
    let h := generateChunkHash md5hex c.content source c.page
    if h ∈ hs then
      let out := ingestLoop md5hex pyHash embedRes upsertOk source rest hs a (s + 1)
      { out with events := .skip h :: out.events }
    else
      let pid := generatePointId pyHash source c.page c.idx h
      match embedRes c.content with
      | .error _ => ⟨.err, 0, 0, hs, [.embed h]⟩
      | .ok _ =>
        if upsertOk h then
          let out := ingestLoop md5hex pyHash embedRes upsertOk source rest
            (h :: hs) (a + 1) s
          { out with events := .embed h :: .upsert pid h :: .add h :: out.events }
        else ⟨.err, 0, 0, hs, [.embed h, .upsertFail pid h]⟩

/-- `process_document_incremental` for one document: `setupOk = false`
stands for an exception in the loader, the embedding-model selection
or `_ensure_collection`; an empty page list short-circuits to the
"skipped / no_pages" dict; otherwise the chunk loop runs over the
dedup set `S0` the instance holds on entry.  The per-document mutex
serialises runs, so one run sees a fixed `S0`. -/
def processDocumentIncremental (md5hex : List Char → List Char)
    (pyHash : List Char → Int)
    (embedRes : List Char → Except PyErr (List ℚ))
    (upsertOk : List Char → Bool)
    (splitText : List Char → List (List Char)) (setupOk : Bool)
    (source : List Char) (pages : List (List Char))
    (S0 : List (List Char)) : IngestOut :=
  if !setupOk then ⟨.err, 0, 0, S0, []⟩
  else if pages.isEmpty then ⟨.noPages, 0, 0, S0, []⟩
  else ingestLoop md5hex pyHash embedRes upsertOk source
    (enumeratePageChunks splitText pages) S0 0 0

/-- Every `add h` event is immediately preceded by a successful
`upsert` of the same fingerprint. -/
def addsAfterUpsert : List IngestEvent → Bool
  | [] => true
  | .add _ :: _ => false
  | .upsert _ h :: .add h' :: rest => h == h' && addsAfterUpsert rest
  | _ :: rest => addsAfterUpsert rest

def isSkipEvent : IngestEvent → Bool
  | .skip _ => true
  | _ => false

/-! ## Retrieval pipeline
Embedding of `RAGPipeline.search` (`src/rag_qdrant/pipeline.py`, lines
88-207).  The embedding model, the reranker, the two LLM backends and
`json.loads` are external; one `PipelineEnv` value fixes their
behaviour for a run, and theorems quantify over all of them. -/

def DEFAULT_TOP_K : Nat := 20
def DEFAULT_RERANK_TOP_K : Nat := 10

structure SourceEntry where
  doc_id : List Char
  page : Int
  content : List Char
  score : ℚ
deriving BEq, Repr

structure RAGResponse where
  answer : Json
  citations : Json
  claims : Json
  sources : List SourceEntry
  confidence : ℚ
  processing_time : ℚ
  success : Bool
  error_message : Option (List Char) := none
deriving BEq, Repr

structure PipelineEnv where
  loads : List Char → Option Json
  store : List PointStruct
  scoreOf : PointStruct → ℚ
  embedRes : Except PyErr (List ℚ)
  rerankerAvail : Bool
  rerankScores : List ℚ
  mistralAvail : Bool
  groqAvail : Bool
  rawMistral : Except PyErr (List Char)
  rawGroq : Except PyErr (List Char)

/-- `RAGPipeline._build_context`. -/
def buildContext (chunks : List DocumentChunk) : List Char :=
  if chunks.isEmpty then ("Aucun document pertinent trouvé.").toList
  else joinNl (chunks.map (fun c =>
    ("\nDocument: ").toList ++ c.doc_id ++ ("\nPage: ").toList
      ++ intStr c.page ++ ("\nContenu: ").toList ++ c.content
      ++ ("\n---").toList))

/-- The failure response built by the `except` clause of `search`. -/
def errorRAGResponse : RAGResponse :=
  { answer := Json.str (("Erreur lors de la recherche").toList)
    citations := Json.arr []
    claims := Json.arr []
    sources := []
    confidence := 0
    processing_time := 0
    success := false
    error_message := some (("Erreur lors de la recherche").toList) }

/-- The truncated content preview of one `sources` entry; the chunk
carries no `score` attribute, so `getattr(chunk, 'score', 0.8)` always
yields the default. -/
def mkSourceEntry (c : DocumentChunk) : SourceEntry :=
  { doc_id := c.doc_id
    page := c.page
    content := if 200 < c.content.length then c.content.take 200 ++ ("...").toList
      else c.content
    score := 4 / 5 }

/-- Steps 6-8 of `RAGPipeline.search`: gate the source list on the
truthiness of `response.get("citations", [])`, then assemble the
`RAGResponse` from `response["answer"]`, `response["citations"]`,
`response["claims"]` — a missing key or a non-dict response raises
(`KeyError`/`AttributeError`) and is caught by the outer `except`,
which yields the failure response. -/
def assembleResponse (response : Json) (chunks2 : List DocumentChunk) :
    RAGResponse :=
  match response with
  | Json.obj kvs =>
    let citVal := (dictGet kvs citationsKey).getD (Json.arr [])
    let sources := if pyTruthy citVal then chunks2.map mkSourceEntry else []
    match dictGet kvs answerKey, dictGet kvs citationsKey,
        dictGet kvs claimsKey with
    | some ans, some cits, some clms =>
      { answer := ans, citations := cits, claims := clms
        sources := sources, confidence := 4 / 5, processing_time := 0
        success := true }
    | _, _, _ => errorRAGResponse
  | _ => errorRAGResponse

/-- `RAGPipeline.search`.  The generation prompt is built from the
context and the question and handed to the external LLM; its
completion is already fixed by the oracles in `env`, so the prompt
text itself does not appear in the model.  A `.error` embedding result
stands for `encode_single` raising, which the outer `except` converts
into the failure response. -/
def ragSearch (env : PipelineEnv) (docIds : Option (List (List Char)))
    (limitArg : Option Nat) (useReranking : Bool)
    (llmProvider : List Char) : RAGResponse :=
  let limit := match limitArg with
    | some n => if n = 0 then DEFAULT_TOP_K else n
    | none => DEFAULT_TOP_K
  match env.embedRes with
  | .error _ => errorRAGResponse
  | .ok _ =>
    let hits := searchSimilar env.store env.scoreOf
      (if useReranking then limit * 2 else limit)
      (match docIds with
       | none => DocIdsArg.noneArg
       | some l => DocIdsArg.listArg l)
    let chunks := hits.map (fun r =>
      ({ content := r.content, doc_id := r.doc_id, page := r.page
         chunk_id := r.chunk_id, file_path := [], file_hash := []
         created_at := [] } : DocumentChunk))
    let chunks2 :=
      if useReranking && !chunks.isEmpty && env.rerankerAvail then
        let scored := chunks.zip env.rerankScores
        let rerankLimit := min limit DEFAULT_RERANK_TOP_K
        ((sortByDesc Prod.snd scored).take rerankLimit).map Prod.fst
      else chunks
    let _context := buildContext chunks2
    let response : Json :=
      if llmProvider == ("groq").toList && env.groqAvail then
        generateResponse env.loads env.groqAvail env.rawGroq
          (("GroqManager").toList)
      else
        generateResponse env.loads env.mistralAvail env.rawMistral
          (("MistralManager").toList)
    assembleResponse response chunks2

/-! ## Theorems -/

/-- C7: `RAGPipeline.delete_document` is claimed to return a boolean and
never raise past the pipeline boundary; in fact `QdrantManager` defines
no `delete_document` method, so every call raises `AttributeError`
regardless of the document id or of any would-be implementation. -/
theorem delete_document_always_raises :
    pipelineDeleteDocument (fun _ => true) (("regles_jeu").toList) =
      Except.error PyErr.attributeError := by
  rfl

/-- C3: the numeric point identity of `_generate_point_id` is computed
with Python's builtin `hash` on a string, which is salted per process
(`PYTHONHASHSEED`); two runs of the program instantiate two different
hash functions, and the same logical chunk then receives two different
point ids.  The two functions below stand for the builtin hash in two
processes with different seeds. -/
theorem point_id_unstable_across_runs :
    generatePointId (fun _ => 0) (("data/regles.pdf").toList) 1 0
        (("0123456789abcdef").toList) ≠
      generatePointId (fun _ => 1) (("data/regles.pdf").toList) 1 0
        (("0123456789abcdef").toList) := by
  decide

/-- Helper for the C2 counterexample: `json.loads` on the input `"3"`
returns the Python int `3`. -/
def loadsNumThree : List Char → Option Json :=
  fun s => if s = ("3").toList then some (Json.num 3) else none

/-- C2 counterexample: on the raw output `"3"`, the cleaned form parses
successfully to a JSON value with no keys at all, and
`_parse_and_validate_response` raises `TypeError` (from `"answer" in 3`)
instead of returning the degenerate fallback structure — refuting the
claim that it never raises on inputs whose parsed value lacks the
required keys. -/
theorem fallback_parsing_counterexample :
    parseAndValidateResponse loadsNumThree (("3").toList) =
      Except.error PyErr.typeError := by
  rfl

/-- C10: `store_chunks` edge behaviour — an empty chunk list returns
`True` without contacting the store; chunks without an embedding are
skipped and never persisted; a non-empty list in which no chunk
carries an embedding returns `False` (and issues no upsert); and a
`True` result means the input was empty or at least one point was
upserted. -/
theorem store_chunks_edge_behavior (pyHash : List Char → Int)
    (upsertOk : Bool) (chunks : List DocumentChunk) :
    storeChunks pyHash upsertOk [] = (true, none)
    ∧ ((∀ c ∈ chunks, c.embedding = none) → chunks ≠ [] →
        storeChunks pyHash upsertOk chunks = (false, none))
    ∧ ((storeChunks pyHash upsertOk chunks).1 = true →
        chunks = [] ∨ ∃ ps, (storeChunks pyHash upsertOk chunks).2 = some ps ∧ ps ≠ [])
    ∧ (∀ ps, (storeChunks pyHash upsertOk chunks).2 = some ps →
        ∀ p ∈ ps, ∃ c ∈ chunks, ∃ v, c.embedding = some v ∧ v ≠ [] ∧
          p = mkStorePoint pyHash c v) := by
  refine ⟨rfl, ?_, ?_, ?_⟩
  · intro hall hne
    have hpts : chunks.filterMap (fun c =>
        match c.embedding with
        | none => none
        | some [] => none
        | some v => some (mkStorePoint pyHash c v)) = [] := by
      refine List.filterMap_eq_nil_iff.mpr (fun c hc => ?_)
      rw [hall c hc]
    simp only [storeChunks, hpts]
    simp [hne]
  · intro h
    by_cases hc : chunks = []
    · exact Or.inl hc
    · right
      have hcb : ¬(chunks.isEmpty = true) := by simpa [List.isEmpty_iff] using hc
      simp only [storeChunks] at h ⊢
      rw [if_neg hcb] at h ⊢
      set pts := chunks.filterMap (fun c =>
        match c.embedding with
        | none => none
        | some [] => none
        | some v => some (mkStorePoint pyHash c v)) with hdef
      by_cases hp : pts.isEmpty
      · rw [if_pos hp] at h
        exact absurd h (by simp)
      · rw [if_neg hp] at h ⊢
        cases upsertOk with
        | true => exact ⟨pts, by simp, by simpa [List.isEmpty_eq_true] using hp⟩
        | false => exact absurd h (by simp)
  · intro ps hps p hp
    by_cases hc : chunks = []
    · subst hc
      simp [storeChunks] at hps
    · have hcb : ¬(chunks.isEmpty = true) := by simpa [List.isEmpty_iff] using hc
      simp only [storeChunks] at hps
      rw [if_neg hcb] at hps
      set pts := chunks.filterMap (fun c =>
        match c.embedding with
        | none => none
        | some [] => none
        | some v => some (mkStorePoint pyHash c v)) with hdef
      by_cases hpe : pts.isEmpty
      · rw [if_pos hpe] at hps
        simp at hps
      · rw [if_neg hpe] at hps
        have hpsq : ps = pts := by
          cases upsertOk <;> simp at hps <;> exact hps.symm
        subst hpsq
        have := List.mem_filterMap.mp (hdef ▸ hp)
        obtain ⟨c, hcmem, hfc⟩ := this
        refine ⟨c, hcmem, ?_⟩
        cases hemb : c.embedding with
        | none => rw [hemb] at hfc; simp at hfc
        | some v =>
          cases v with
          | nil => rw [hemb] at hfc; simp at hfc
          | cons q qs =>
            rw [hemb] at hfc
            simp at hfc
            exact ⟨q :: qs, rfl, by simp, hfc.symm⟩

/-- A concrete chunk carrying no embedding, for the C10 witness. -/
def chunkNoEmb : DocumentChunk :=
  { content := ("regle").toList, doc_id := ("doc").toList, page := 1
    chunk_id := ("doc_p1_c1").toList, file_path := [], file_hash := []
    created_at := [] }

/-- Witness for C10 at concrete inputs: the empty list returns
`(True, no call)` and a singleton list without embeddings returns
`(False, no call)`. -/
theorem store_chunks_edge_behavior_witness :
    storeChunks (fun _ => 0) true [] = (true, none) ∧
    storeChunks (fun _ => 0) true [chunkNoEmb] = (false, none) :=
  ⟨(store_chunks_edge_behavior (fun _ => 0) true []).1,
   (store_chunks_edge_behavior (fun _ => 0) true [chunkNoEmb]).2.1
     (by intro c hc; rcases List.mem_singleton.mp hc with rfl; rfl)
     (List.cons_ne_nil _ _)⟩

/-! ### Dictionary lemmas for the parser theorems -/

theorem dictGet_none_of_hasKey_false {kvs : List (List Char × Json)}
    {k : List Char} (h : hasKey kvs k = false) : dictGet kvs k = none := by
  induction kvs with
  | nil => rfl
  | cons kv rest ih =>
    simp only [hasKey, List.any_cons, Bool.or_eq_false_iff] at h
    have hr : dictGet rest k = none := ih (by simp [hasKey, h.2])
    simp [dictGet, hr, h.1]

theorem dictGet_map_replace_none {kvs : List (List Char × Json)}
    {k : List Char} {v : Json} (h : hasKey kvs k = false) :
    dictGet (kvs.map (fun kv => if kv.1 == k then (k, v) else kv)) k = none := by
  induction kvs with
  | nil => rfl
  | cons kv rest ih =>
    simp only [hasKey, List.any_cons, Bool.or_eq_false_iff] at h
    have hr := ih (show hasKey rest k = false by simp [hasKey, h.2])
    simp at hr
    simp [dictGet, hr, h.1]

theorem dictGet_map_replace_self {kvs : List (List Char × Json)}
    {k : List Char} {v : Json} (h : hasKey kvs k = true) :
    dictGet (kvs.map (fun kv => if kv.1 == k then (k, v) else kv)) k = some v := by
  induction kvs with
  | nil => simp [hasKey] at h
  | cons kv rest ih =>
    by_cases hr : hasKey rest k = true
    · simp only [List.map_cons, dictGet, ih hr]
    · have hrnone := dictGet_map_replace_none (v := v)
        (Bool.eq_false_iff.mpr hr)
      have hkv : (kv.1 == k) = true := by
        simp only [hasKey, List.any_cons] at h
        rcases Bool.or_eq_true_iff.mp h with h1 | h2
        · exact h1
        · exact absurd h2 hr
      simp at hrnone
      simp [dictGet, hrnone, hkv]

theorem dictGet_map_replace_ne {kvs : List (List Char × Json)}
    {k : List Char} {v : Json} {k' : List Char} (h : k' ≠ k) :
    dictGet (kvs.map (fun kv => if kv.1 == k then (k, v) else kv)) k' =
      dictGet kvs k' := by
  induction kvs with
  | nil => rfl
  | cons kv rest ih =>
    simp only [List.map_cons, dictGet, ih]
    by_cases hkv : (kv.1 == k) = true
    · have hk_eq : kv.1 = k := beq_iff_eq.mp hkv
      have h1 : (k == k') = false :=
        beq_eq_false_iff_ne.mpr (fun hkk => h hkk.symm)
      have h2 : (kv.1 == k') = false := by rw [hk_eq]; exact h1
      cases dictGet rest k' <;> simp [hkv, h1, h2]
    · cases dictGet rest k' <;> simp [hkv]

theorem dictGet_append_single_self {kvs : List (List Char × Json)}
    {k : List Char} {v : Json} : dictGet (kvs ++ [(k, v)]) k = some v := by
  induction kvs with
  | nil => simp [dictGet]
  | cons kv rest ih => simp [dictGet, ih]

theorem dictGet_append_single_ne {kvs : List (List Char × Json)}
    {k : List Char} {v : Json} {k' : List Char} (h : k' ≠ k) :
    dictGet (kvs ++ [(k, v)]) k' = dictGet kvs k' := by
  induction kvs with
  | nil =>
    have hkk : (k == k') = false :=
      beq_eq_false_iff_ne.mpr (fun hkk => h hkk.symm)
    simp [dictGet, hkk]
  | cons kv rest ih => simp [dictGet, ih]

theorem dictGet_setKey_self {kvs : List (List Char × Json)}
    {k : List Char} {v : Json} : dictGet (setKey kvs k v) k = some v := by
  unfold setKey
  by_cases h : hasKey kvs k = true
  · rw [if_pos h]; exact dictGet_map_replace_self h
  · rw [if_neg h]; exact dictGet_append_single_self

theorem dictGet_setKey_ne {kvs : List (List Char × Json)}
    {k : List Char} {v : Json} {k' : List Char} (h : k' ≠ k) :
    dictGet (setKey kvs k v) k' = dictGet kvs k' := by
  unfold setKey
  by_cases hk : hasKey kvs k = true
  · rw [if_pos hk]; exact dictGet_map_replace_ne h
  · rw [if_neg hk]; exact dictGet_append_single_ne h

/-- `all(key in parsed_response for key in required_keys)` on a dict is
the conjunction of the three key tests. -/
theorem allKeysCheck_obj (kvs : List (List Char × Json)) :
    allKeysCheck (Json.obj kvs) =
      .ok (hasKey kvs answerKey &&
        (hasKey kvs citationsKey && hasKey kvs claimsKey)) := by
  simp only [allKeysCheck, pyIn]
  cases hasKey kvs answerKey <;> cases hasKey kvs citationsKey <;>
    cases hasKey kvs claimsKey <;> rfl

/-- C1: citation gating — whenever the cleaned raw output parses as a
JSON object carrying all three required keys and its (string) answer,
lower-cased, contains one of the French negative-finding phrases, the
parser returns an object whose `citations` and `claims` are both the
empty list, whatever citation or claim arrays the model emitted. -/
theorem citation_gating_holds (loads : List Char → Option Json)
    (raw : List Char) (kvs : List (List Char × Json)) (a : List Char)
    (hload : loads (cleanResponse raw) = some (Json.obj kvs))
    (hans : hasKey kvs answerKey = true)
    (hcit : hasKey kvs citationsKey = true)
    (hclm : hasKey kvs claimsKey = true)
    (hansval : dictGet kvs answerKey = some (Json.str a))
    (hphrase : noInfoPhrases.any (fun p => containsSub p (pyLower a)) = true) :
    ∃ out, parseAndValidateResponse loads raw = .ok (Json.obj out)
      ∧ dictGet out citationsKey = some (Json.arr [])
      ∧ dictGet out claimsKey = some (Json.arr []) := by
  refine ⟨setKey (setKey kvs citationsKey (Json.arr [])) claimsKey (Json.arr []),
    ?_, ?_, ?_⟩
  · simp only [parseAndValidateResponse, hload, allKeysCheck_obj, hans, hcit,
      hclm, Bool.and_self, hansval, Option.getD_some, hphrase, if_true]
  · rw [dictGet_setKey_ne (show citationsKey ≠ claimsKey by decide)]
    exact dictGet_setKey_self
  · exact dictGet_setKey_self

/-- The model output used by the C1 witness: an "aucune information"
answer accompanied by non-empty citation and claim arrays. -/
def gatingObj : List (List Char × Json) :=
  [(answerKey, Json.str (("aucune information").toList)),
   (citationsKey, Json.arr [Json.num 1]),
   (claimsKey, Json.arr [Json.num 2])]

def loadsGating : List Char → Option Json := fun _ => some (Json.obj gatingObj)

/-- Witness for C1 at a concrete negative-finding answer. -/
theorem citation_gating_holds_witness :
    ∃ out, parseAndValidateResponse loadsGating (("x").toList) =
        .ok (Json.obj out)
      ∧ dictGet out citationsKey = some (Json.arr [])
      ∧ dictGet out claimsKey = some (Json.arr []) :=
  citation_gating_holds loadsGating (("x").toList) gatingObj
    (("aucune information").toList) rfl rfl rfl rfl rfl rfl

/-- C2 (amended): when the cleaned raw output fails JSON parsing, or
parses to a JSON *object* missing one of the keys `answer`,
`citations`, `claims`, the parser raises nothing and returns exactly
the degenerate structure built from the raw text.  (As stated over all
non-object parses the claim is false: see the counterexample on the
raw output `"3"`.) -/
theorem fallback_parsing_amended (loads : List Char → Option Json)
    (raw : List Char)
    (h : loads (cleanResponse raw) = none ∨
      ∃ kvs, loads (cleanResponse raw) = some (Json.obj kvs) ∧
        (hasKey kvs answerKey = false ∨ hasKey kvs citationsKey = false ∨
         hasKey kvs claimsKey = false)) :
    parseAndValidateResponse loads raw = .ok (fallbackResponse raw) := by
  rcases h with h | ⟨kvs, hload, hmiss⟩
  · simp [parseAndValidateResponse, h]
  · have hb : (hasKey kvs answerKey &&
        (hasKey kvs citationsKey && hasKey kvs claimsKey)) = false := by
      rcases hmiss with h1 | h1 | h1 <;> simp [h1]
    simp [parseAndValidateResponse, hload, allKeysCheck_obj, hb]

def loadsAlwaysFails : List Char → Option Json := fun _ => none

/-- Witness for the amended C2 on a concrete prose answer that fails
JSON parsing. -/
theorem fallback_parsing_amended_witness :
    parseAndValidateResponse loadsAlwaysFails (("bonjour\nmonde").toList) =
      .ok (fallbackResponse (("bonjour\nmonde").toList)) :=
  fallback_parsing_amended loadsAlwaysFails (("bonjour\nmonde").toList)
    (Or.inl rfl)

/-! ### Search-filter lemmas -/

theorem mem_insertByDesc {α : Type} {key : α → ℚ} {x a : α} :
    ∀ {l : List α}, a ∈ insertByDesc key x l → a = x ∨ a ∈ l := by
  intro l
  induction l with
  | nil => simp [insertByDesc]
  | cons y ys ih =>
    simp only [insertByDesc]
    split
    · intro h
      rcases List.mem_cons.mp h with h | h
      · exact Or.inl h
      · exact Or.inr h
    · intro h
      rcases List.mem_cons.mp h with h | h
      · exact Or.inr (h ▸ List.mem_cons_self y ys)
      · rcases ih h with h2 | h2
        · exact Or.inl h2
        · exact Or.inr (List.mem_cons_of_mem y h2)

theorem mem_sortByDesc {α : Type} {key : α → ℚ} {a : α} :
    ∀ {l : List α}, a ∈ sortByDesc key l → a ∈ l := by
  intro l
  induction l with
  | nil => simp [sortByDesc]
  | cons x xs ih =>
    intro h
    rcases mem_insertByDesc (h : a ∈ insertByDesc key x (sortByDesc key xs)) with
      h2 | h2
    · exact h2 ▸ List.mem_cons_self x xs
    · exact List.mem_cons_of_mem x (ih h2)

/-- Every hit returned by `search_similar` comes from a stored point
that passes the installed filter and shares its `doc_id`. -/
theorem searchSimilar_hit_source {store : List PointStruct}
    {score : PointStruct → ℚ} {limit : Nat} {arg : DocIdsArg} {r : SearchHit}
    (hr : r ∈ searchSimilar store score limit arg) :
    ∃ p ∈ store, matchesFilter (buildSearchFilter arg) p = true ∧
      r.doc_id = p.doc_id := by
  simp only [searchSimilar, List.mem_map] at hr
  obtain ⟨p, hp, rfl⟩ := hr
  unfold qdrantEngineSearch at hp
  have hp2 := mem_sortByDesc (List.mem_of_mem_take hp)
  have hp3 := List.mem_filter.mp hp2
  exact ⟨p, hp3.1, hp3.2, rfl⟩

/-- C6 (amended): `search_similar` with a *non-empty* single `doc_id`
string returns only chunks with exactly that `doc_id`, and with a
*non-empty* list only chunks whose `doc_id` is in the list.  (As
stated over all strings/lists the claim is false: a falsy argument —
the empty string or the empty list — installs no filter at all; see
the counterexample.) -/
theorem search_filter_amended (store : List PointStruct)
    (score : PointStruct → ℚ) (limit : Nat) :
    (∀ s : List Char, s ≠ [] →
      ∀ r ∈ searchSimilar store score limit (DocIdsArg.strArg s), r.doc_id = s)
    ∧ (∀ l : List (List Char), l ≠ [] →
      ∀ r ∈ searchSimilar store score limit (DocIdsArg.listArg l),
        r.doc_id ∈ l) := by
  constructor
  · intro s hs r hr
    obtain ⟨p, _, hmatch, hdoc⟩ := searchSimilar_hit_source hr
    have hfil : buildSearchFilter (DocIdsArg.strArg s) = QFilter.matchValue s := by
      simp [buildSearchFilter, docIdsTruthy, List.isEmpty_iff, hs]
    rw [hfil] at hmatch
    simp only [matchesFilter, beq_iff_eq] at hmatch
    rw [hdoc, hmatch]
  · intro l hl r hr
    obtain ⟨p, _, hmatch, hdoc⟩ := searchSimilar_hit_source hr
    have hfil : buildSearchFilter (DocIdsArg.listArg l) = QFilter.matchAny l := by
      have : 0 < l.length := List.length_pos.mpr hl
      simp [buildSearchFilter, docIdsTruthy, List.isEmpty_iff, hl, this]
    rw [hfil] at hmatch
    simp only [matchesFilter, List.any_eq_true, beq_iff_eq] at hmatch
    obtain ⟨v, hv, hveq⟩ := hmatch
    rw [hdoc, ← hveq]
    exact hv

/-- A stored point used by the C6 counterexample and witness. -/
def cePoint : PointStruct :=
  { id := 0, vector := [], content := ("contenu").toList
    doc_id := ("a").toList, page := 1, chunk_id := ("a_p1_c1").toList
    file_path := [], file_hash := [], created_at := [] }

/-- C6 counterexample: calling `search_similar` with the single
doc_id string `""` returns a chunk whose `doc_id` is `"a" ≠ ""` — the
empty string is falsy, so no filter is installed and the whole
collection is searched, refuting the claim as stated for every
string. -/
theorem search_filter_counterexample :
    ((searchSimilar [cePoint] (fun _ => 0) 10 (DocIdsArg.strArg [])).map
      (fun r => r.doc_id)) = [("a").toList]
    ∧ ("a").toList ≠ ([] : List Char) := by
  exact ⟨rfl, by decide⟩

/-- The hit formatted from `cePoint` with a zero similarity score. -/
def ceHit : SearchHit :=
  { content := ("contenu").toList, doc_id := ("a").toList, page := 1
    chunk_id := ("a_p1_c1").toList, score := 0, metadata := cePoint }

/-- Witness for the amended C6: the hit returned for the non-empty
filter `"a"` indeed carries `doc_id = "a"`. -/
theorem search_filter_amended_witness :
    ceHit.doc_id = ("a").toList :=
  (search_filter_amended [cePoint] (fun _ => 0) 10).1 (("a").toList)
    (by decide) ceHit
    (by rw [show searchSimilar [cePoint] (fun _ => 0) 10
        (DocIdsArg.strArg (("a").toList)) = [ceHit] from rfl]
        exact List.mem_singleton_self _)

/-! ### Chunker bound -/

theorem chunkLoop_length_le (size overlap : Int) (text docId : List Char)
    (page : Int) (fp fh now : List Char) :
    ∀ (k cn : Nat) (start : Int), cn ≤ 1000 → 1000 - cn ≤ k →
      (chunkLoop size overlap text docId page fp fh now cn start).length ≤
        1001 - cn := by
  intro k
  induction k with
  | zero =>
    intro cn start hcn hk
    have hcn' : cn = 1000 := by omega
    subst hcn'
    rw [chunkLoop]
    split
    · rw [dif_pos (by omega : 1000 + 1 > 1000)]
      simp
    · simp
  | succ k ih =>
    intro cn start hcn hk
    rw [chunkLoop]
    split
    · by_cases hg : cn + 1 > 1000
      · rw [dif_pos hg]
        simp
        omega
      · rw [dif_neg hg]
        simp only [List.length_cons]
        have := ih (cn + 1)
          (if (windowCut size text start).1 < (text.length : Int) then
            (windowCut size text start).1 - overlap
          else (windowCut size text start).1) (by omega) (by omega)
        omega
    · simp

/-- C9: for every configuration with positive `chunk_size` and
non-negative `chunk_overlap` — including pathological ones where the
window start does not advance — `create_chunks` terminates (it is a
total function, justified by the `chunk_num > 1000` guard as
termination measure) and emits at most 1000 chunks per page. -/
theorem chunker_chunk_bound (size overlap : Int) (text docId : List Char)
    (page : Int) (fp fh now : List Char) (hsize : 0 < size)
    (hover : 0 ≤ overlap) :
    (createChunks size overlap text docId page fp fh now).length ≤ 1000 := by
  unfold createChunks
  split
  · simp
  · have := chunkLoop_length_le size overlap text docId page fp fh now
      1000 1 0 (by omega) (by omega)
    simpa using this

/-- Witness for C9: a text of 8 characters with `chunk_size = 5`,
`chunk_overlap = 1`. -/
theorem chunker_chunk_bound_witness :
    (0 : Int) < 5 ∧ (0 : Int) ≤ 1 ∧
      (createChunks 5 1 (("abcdefgh").toList) (("doc").toList) 1 [] []
        []).length ≤ 1000 :=
  ⟨by decide, by decide,
    chunker_chunk_bound 5 1 (("abcdefgh").toList) (("doc").toList) 1 [] [] []
      (by decide) (by decide)⟩

/-! ### Word-boundary backtracking -/

theorem rfindIdxChar_none_spec {c : Char} :
    ∀ {l : List Char}, rfindIdxChar c l = none →
      ∀ k, k < l.length → l.getD k ' ' ≠ c := by
  intro l
  induction l with
  | nil => intro _ k hk; simp at hk
  | cons x t ih =>
    intro h k hk
    cases ht : rfindIdxChar c t with
    | some j => simp [rfindIdxChar, ht] at h
    | none =>
      simp only [rfindIdxChar, ht] at h
      have hx : ¬(x = c) := by
        by_contra hx
        simp [hx] at h
      cases k with
      | zero => simpa using hx
      | succ k' =>
        simp only [List.getD_cons_succ]
        exact ih ht k' (by simpa using hk)

theorem rfindIdxChar_some_spec {c : Char} :
    ∀ {l : List Char} {j : Nat}, rfindIdxChar c l = some j →
      j < l.length ∧ l.getD j ' ' = c ∧
        ∀ k, j < k → k < l.length → l.getD k ' ' ≠ c := by
  intro l
  induction l with
  | nil => intro j h; simp [rfindIdxChar] at h
  | cons x t ih =>
    intro j h
    cases ht : rfindIdxChar c t with
    | some j' =>
      simp only [rfindIdxChar, ht] at h
      obtain rfl : j' + 1 = j := by simpa using h
      obtain ⟨h1, h2, h3⟩ := ih ht
      refine ⟨by simpa using h1, by simpa using h2, ?_⟩
      intro k hk1 hk2
      cases k with
      | zero => omega
      | succ k' =>
        simp only [List.getD_cons_succ]
        exact h3 k' (by omega) (by simpa using hk2)
    | none =>
      simp only [rfindIdxChar, ht] at h
      by_cases hx : x = c
      · rw [if_pos hx] at h
        obtain rfl : 0 = j := by simpa using h
        refine ⟨by simp, by simpa using hx, ?_⟩
        intro k hk1 hk2
        cases k with
        | zero => omega
        | succ k' =>
          simp only [List.getD_cons_succ]
          exact rfindIdxChar_none_spec ht k' (by simpa using hk2)
      · rw [if_neg hx] at h
        simp at h

/-- When the window is not final, longer than 100 characters and its
last space lies strictly past 80% of it, `windowCut` moves the cut to
that space. -/
theorem windowCut_backtrack (size : Int) (text : List Char) (start : Int)
    (j : Nat)
    (hfin : min (start + size) (text.length : Int) < (text.length : Int))
    (hlen : 100 <
      (pySlice text start (min (start + size) (text.length : Int))).length)
    (hsp : rfindIdxChar ' '
      (pySlice text start (min (start + size) (text.length : Int))) = some j)
    (hpct : 4 *
        (pySlice text start (min (start + size) (text.length : Int))).length <
      5 * j) :
    windowCut size text start =
      (start + (j : Int), pySlice text start (start + (j : Int))) := by
  simp only [windowCut]
  rw [if_pos ⟨hfin, hlen⟩]
  simp only [hsp]
  rw [if_pos hpct]

/-- Whenever the loop has work left, the first chunk it emits is the
window at `start` cut by `windowCut`. -/
theorem chunkLoop_head (size overlap : Int) (text docId : List Char)
    (page : Int) (fp fh now : List Char) (cn : Nat) (start : Int)
    (hstart : start < (text.length : Int)) :
    (chunkLoop size overlap text docId page fp fh now cn start).head? =
      some (DocumentChunk.create (windowCut size text start).2 docId page
        (cn : Int) fp fh now) := by
  rw [chunkLoop]
  rw [if_pos hstart]
  by_cases hg : cn + 1 > 1000
  · rw [dif_pos hg]; rfl
  · rw [dif_neg hg]; rfl

/-- C8 (amended): inside the multi-chunk loop, backtracking is governed
by the *raw window*, not by the resulting chunk: whenever the window is
not the final one, the raw window exceeds 100 characters and its last
whitespace sits strictly past 80% of the window, the cut moves to that
whitespace — the last space of the window, with no space after it —
even when the resulting chunk ends up shorter than 100 characters.
(The claim's reading that such a backtrack is suppressed when it
leaves the chunk under 100 characters is refuted by the
counterexample.) -/
theorem chunk_backtrack_amended (size overlap : Int) (text docId : List Char)
    (page : Int) (fp fh now : List Char) (cn : Nat) (start : Int) (j : Nat)
    (hstart : start < (text.length : Int))
    (hfin : min (start + size) (text.length : Int) < (text.length : Int))
    (hlen : 100 <
      (pySlice text start (min (start + size) (text.length : Int))).length)
    (hsp : rfindIdxChar ' '
      (pySlice text start (min (start + size) (text.length : Int))) = some j)
    (hpct : 4 *
        (pySlice text start (min (start + size) (text.length : Int))).length <
      5 * j) :
    ((chunkLoop size overlap text docId page fp fh now cn start).head? =
      some (DocumentChunk.create (pySlice text start (start + (j : Int)))
        docId page (cn : Int) fp fh now))
    ∧ (pySlice text start
        (min (start + size) (text.length : Int))).getD j ' ' = ' '
    ∧ ∀ k, j < k →
        k < (pySlice text start (min (start + size) (text.length : Int))).length →
        (pySlice text start (min (start + size) (text.length : Int))).getD k ' '
          ≠ ' ' := by
  obtain ⟨_, h2, h3⟩ := rfindIdxChar_some_spec hsp
  refine ⟨?_, h2, h3⟩
  rw [chunkLoop_head size overlap text docId page fp fh now cn start hstart,
    windowCut_backtrack size text start j hfin hlen hsp hpct]

/-- The C8 counterexample text: 81 letters, one space, 20 letters
(102 characters, so one character beyond a 101-character window). -/
def ctext8 : List Char := List.replicate 81 'a' ++ [' '] ++ List.replicate 20 'b'

/-- C8 counterexample: with `chunk_size = 101`, the first window of
`ctext8` is 101 characters with its last space at index 81
(81 > 0.8·101); the claim says this backtrack must be suppressed
because it leaves an 81-character chunk (< 100) and the raw
101-character cut kept, but the code backtracks anyway: the first
emitted chunk has 81 characters. -/
theorem chunk_backtrack_counterexample :
    ((createChunks 101 50 ctext8 (("doc").toList) 1 [] [] []).map
      (fun c => c.content.length)).head? = some 81 ∧ 81 < 100 := by
  constructor
  · rw [List.head?_map,
      show createChunks 101 50 ctext8 (("doc").toList) 1 [] [] [] =
        chunkLoop 101 50 ctext8 (("doc").toList) 1 [] [] [] 1 0 from rfl,
      chunkLoop_head 101 50 ctext8 (("doc").toList) 1 [] [] [] 1 0 (by decide)]
    rfl
  · decide

/-- Witness for the amended C8 on the same concrete text: hypotheses
hold at `j = 81` and the emitted head chunk is the backtracked slice. -/
theorem chunk_backtrack_amended_witness :
    ((chunkLoop 101 50 ctext8 (("doc").toList) 1 [] [] [] 1 0).head? =
      some (DocumentChunk.create (pySlice ctext8 0 (0 + (81 : Int)))
        (("doc").toList) 1 (1 : Int) [] [] []))
    ∧ (pySlice ctext8 0
        (min (0 + 101) ((ctext8.length : Int)))).getD 81 ' ' = ' '
    ∧ ∀ k, 81 < k →
        k < (pySlice ctext8 0 (min (0 + 101) ((ctext8.length : Int)))).length →
        (pySlice ctext8 0 (min (0 + 101) ((ctext8.length : Int)))).getD k ' '
          ≠ ' ' :=
  chunk_backtrack_amended 101 50 ctext8 (("doc").toList) 1 [] [] [] 1 0 81
    (by decide) (by decide) (by decide) (by decide) (by decide)

/-! ### Ingestion dedup invariants -/

theorem ingestLoop_adds_after_upsert (md5hex : List Char → List Char)
    (pyHash : List Char → Int) (embedRes : List Char → Except PyErr (List ℚ))
    (upsertOk : List Char → Bool) (source : List Char) :
    ∀ (chunks : List PageChunk) (hs : List (List Char)) (a s : Nat),
      addsAfterUpsert
        (ingestLoop md5hex pyHash embedRes upsertOk source chunks hs a s).events
        = true := by
  intro chunks
  induction chunks with
  | nil => intro hs a s; rfl
  | cons c rest ih =>
    intro hs a s
    simp only [ingestLoop]
    by_cases hmem : generateChunkHash md5hex c.content source c.page ∈ hs
    · rw [if_pos hmem]
      exact ih hs a (s + 1)
    · rw [if_neg hmem]
      cases he : embedRes c.content with
      | error e => rfl
      | ok v =>
        by_cases hup : upsertOk (generateChunkHash md5hex c.content source c.page) = true
        · rw [if_pos hup]
          have := ih (generateChunkHash md5hex c.content source c.page :: hs)
            (a + 1) s
          simp only [addsAfterUpsert, beq_self_eq_true, Bool.true_and]
          exact this
        · rw [if_neg hup]
          rfl

theorem ingestLoop_all_duplicates (md5hex : List Char → List Char)
    (pyHash : List Char → Int) (embedRes : List Char → Except PyErr (List ℚ))
    (upsertOk : List Char → Bool) (source : List Char) :
    ∀ (chunks : List PageChunk) (hs : List (List Char)) (a s : Nat),
      (∀ c ∈ chunks, generateChunkHash md5hex c.content source c.page ∈ hs) →
      (ingestLoop md5hex pyHash embedRes upsertOk source chunks hs a s).status
          = .success
      ∧ (ingestLoop md5hex pyHash embedRes upsertOk source chunks hs a s).chunksAdded = a
      ∧ (ingestLoop md5hex pyHash embedRes upsertOk source chunks hs a s).chunksSkipped
          = s + chunks.length
      ∧ (ingestLoop md5hex pyHash embedRes upsertOk source chunks hs a s).events
          = chunks.map (fun c =>
              IngestEvent.skip (generateChunkHash md5hex c.content source c.page)) := by
  intro chunks
  induction chunks with
  | nil => intro hs a s _; exact ⟨rfl, rfl, rfl, rfl⟩
  | cons c rest ih =>
    intro hs a s hall
    have hmem : generateChunkHash md5hex c.content source c.page ∈ hs :=
      hall c (List.mem_cons_self c rest)
    obtain ⟨h1, h2, h3, h4⟩ := ih hs a (s + 1)
      (fun c' hc' => hall c' (List.mem_cons_of_mem _ hc'))
    simp only [ingestLoop]
    rw [if_pos hmem]
    refine ⟨h1, h2, ?_, ?_⟩
    · show (ingestLoop md5hex pyHash embedRes upsertOk source rest hs a
        (s + 1)).chunksSkipped = s + (c :: rest).length
      rw [h3]
      simp
      omega
    · show IngestEvent.skip (generateChunkHash md5hex c.content source c.page) ::
        (ingestLoop md5hex pyHash embedRes upsertOk source rest hs a
          (s + 1)).events = _
      rw [h4]
      simp

/-- C4: the dedup discipline of `process_document_incremental` — (1) in
the event trace of any run, a fingerprint is added to the
`processed_hashes` set only immediately after its chunk's upsert
completed successfully, never before persistence; (2) when the setup
succeeds, the document has pages, and every chunk's fingerprint is
already in the dedup set (an unchanged re-ingested file), the run
succeeds, adds zero points, reports every chunk as skipped, and its
trace holds nothing but skip events — no embedding call, no upsert. -/
theorem dedup_ingestion_invariant (md5hex : List Char → List Char)
    (pyHash : List Char → Int) (embedRes : List Char → Except PyErr (List ℚ))
    (upsertOk : List Char → Bool) (splitText : List Char → List (List Char))
    (setupOk : Bool) (source : List Char) (pages : List (List Char))
    (S0 : List (List Char)) :
    addsAfterUpsert (processDocumentIncremental md5hex pyHash embedRes upsertOk
      splitText setupOk source pages S0).events = true
    ∧ (setupOk = true → pages ≠ [] →
      (∀ c ∈ enumeratePageChunks splitText pages,
        generateChunkHash md5hex c.content source c.page ∈ S0) →
      (processDocumentIncremental md5hex pyHash embedRes upsertOk splitText
          setupOk source pages S0).status = .success
      ∧ (processDocumentIncremental md5hex pyHash embedRes upsertOk splitText
          setupOk source pages S0).chunksAdded = 0
      ∧ (processDocumentIncremental md5hex pyHash embedRes upsertOk splitText
          setupOk source pages S0).chunksSkipped
          = (enumeratePageChunks splitText pages).length
      ∧ ∀ e ∈ (processDocumentIncremental md5hex pyHash embedRes upsertOk
          splitText setupOk source pages S0).events, isSkipEvent e = true) := by
  constructor
  · unfold processDocumentIncremental
    by_cases hsetup : setupOk
    · rw [if_neg (by simp [hsetup])]
      by_cases hp : pages.isEmpty
      · rw [if_pos hp]; rfl
      · rw [if_neg hp]
        exact ingestLoop_adds_after_upsert md5hex pyHash embedRes upsertOk
          source _ S0 0 0
    · rw [if_pos (by simp [hsetup])]; rfl
  · intro hsetup hpages hall
    have hp : ¬(pages.isEmpty = true) := by simpa [List.isEmpty_iff] using hpages
    have hred : processDocumentIncremental md5hex pyHash embedRes upsertOk
        splitText setupOk source pages S0
        = ingestLoop md5hex pyHash embedRes upsertOk source
            (enumeratePageChunks splitText pages) S0 0 0 := by
      unfold processDocumentIncremental
      rw [if_neg (by simp [hsetup]), if_neg hp]
    obtain ⟨h1, h2, h3, h4⟩ := ingestLoop_all_duplicates md5hex pyHash embedRes
      upsertOk source (enumeratePageChunks splitText pages) S0 0 0 hall
    rw [hred]
    refine ⟨h1, h2, by rw [h3]; omega, ?_⟩
    intro e he
    rw [h4] at he
    obtain ⟨c, _, rfl⟩ := List.mem_map.mp he
    rfl

/-- Concrete oracles for the C4 witness: a one-page document whose
single chunk fingerprint is already in the dedup set. -/
def wMd5 : List Char → List Char := fun s => s

def wSplit : List Char → List (List Char) := fun s => [s]

def wS0 : List (List Char) :=
  [generateChunkHash wMd5 (("page un").toList) (("d.pdf").toList) 1]

/-- Witness for C4: re-ingesting the unchanged one-page document
succeeds with zero chunks added and its whole trace made of skips. -/
theorem dedup_ingestion_invariant_witness :
    (processDocumentIncremental wMd5 (fun _ => 0) (fun _ => Except.ok [])
        (fun _ => true) wSplit true (("d.pdf").toList) [("page un").toList]
        wS0).status = IngestStatus.success
    ∧ (processDocumentIncremental wMd5 (fun _ => 0) (fun _ => Except.ok [])
        (fun _ => true) wSplit true (("d.pdf").toList) [("page un").toList]
        wS0).chunksAdded = 0 :=
  ⟨((dedup_ingestion_invariant wMd5 (fun _ => 0) (fun _ => Except.ok [])
      (fun _ => true) wSplit true (("d.pdf").toList) [("page un").toList]
      wS0).2 rfl (by decide) (by
        intro c hc
        have he : enumeratePageChunks wSplit [("page un").toList] =
            [⟨1, 0, ("page un").toList⟩] := rfl
        rw [he] at hc
        rcases List.mem_singleton.mp hc with rfl
        exact List.mem_singleton_self _)).1,
   ((dedup_ingestion_invariant wMd5 (fun _ => 0) (fun _ => Except.ok [])
      (fun _ => true) wSplit true (("d.pdf").toList) [("page un").toList]
      wS0).2 rfl (by decide) (by
        intro c hc
        have he : enumeratePageChunks wSplit [("page un").toList] =
            [⟨1, 0, ("page un").toList⟩] := rfl
        rw [he] at hc
        rcases List.mem_singleton.mp hc with rfl
        exact List.mem_singleton_self _)).2.1⟩

/-! ### Response assembly invariant -/

theorem assembleResponse_invariant (j : Json) (chunks2 : List DocumentChunk) :
    ((assembleResponse j chunks2).success = false →
      (assembleResponse j chunks2).citations = Json.arr []
      ∧ (assembleResponse j chunks2).sources = [])
    ∧ ((assembleResponse j chunks2).sources ≠ [] →
      (assembleResponse j chunks2).citations ≠ Json.arr []) := by
  cases j with
  | obj kvs =>
    simp only [assembleResponse]
    cases ha : dictGet kvs answerKey with
    | none => exact ⟨fun _ => ⟨rfl, rfl⟩, fun hs => absurd rfl hs⟩
    | some ans =>
      cases hc : dictGet kvs citationsKey with
      | none => exact ⟨fun _ => ⟨rfl, rfl⟩, fun hs => absurd rfl hs⟩
      | some cits =>
        cases hm : dictGet kvs claimsKey with
        | none => exact ⟨fun _ => ⟨rfl, rfl⟩, fun hs => absurd rfl hs⟩
        | some clms =>
          simp only [Option.getD_some]
          constructor
          · intro hfalse
            simp at hfalse
          · intro hsrc heq
            by_cases ht : pyTruthy cits = true
            · rw [heq] at ht
              simp [pyTruthy] at ht
            · rw [if_neg ht] at hsrc
              exact hsrc rfl
  | null => exact ⟨fun _ => ⟨rfl, rfl⟩, fun hs => absurd rfl hs⟩
  | bool b => exact ⟨fun _ => ⟨rfl, rfl⟩, fun hs => absurd rfl hs⟩
  | num n => exact ⟨fun _ => ⟨rfl, rfl⟩, fun hs => absurd rfl hs⟩
  | str s => exact ⟨fun _ => ⟨rfl, rfl⟩, fun hs => absurd rfl hs⟩
  | arr l => exact ⟨fun _ => ⟨rfl, rfl⟩, fun hs => absurd rfl hs⟩

/-- C5: every `RAGResponse` returned by `RAGPipeline.search` satisfies
(1) if `success` is false then `citations` and `sources` are both
empty, and (2) `sources` is non-empty only when the parsed citations
value is a non-empty list — an absence-of-information answer carries
no sources. -/
theorem response_assembly_invariant (env : PipelineEnv)
    (docIds : Option (List (List Char))) (limitArg : Option Nat)
    (useReranking : Bool) (llmProvider : List Char) :
    ((ragSearch env docIds limitArg useReranking llmProvider).success = false →
      (ragSearch env docIds limitArg useReranking llmProvider).citations =
        Json.arr []
      ∧ (ragSearch env docIds limitArg useReranking llmProvider).sources = [])
    ∧ ((ragSearch env docIds limitArg useReranking llmProvider).sources ≠ [] →
      (ragSearch env docIds limitArg useReranking llmProvider).citations ≠
        Json.arr []) := by
  unfold ragSearch
  cases henv : env.embedRes with
  | error e => exact ⟨fun _ => ⟨rfl, rfl⟩, fun hs => absurd rfl hs⟩
  | ok emb => exact assembleResponse_invariant _ _

/-- A pipeline environment whose embedding call raises, for the C5
witness. -/
def envEmbedFails : PipelineEnv :=
  { loads := fun _ => none, store := [], scoreOf := fun _ => 0
    embedRes := Except.error PyErr.typeError, rerankerAvail := false
    rerankScores := [], mistralAvail := false, groqAvail := false
    rawMistral := Except.error PyErr.typeError
    rawGroq := Except.error PyErr.typeError }

/-- Witness for C5: when the embedding call raises, the returned
failure response has empty citations and sources. -/
theorem response_assembly_invariant_witness :
    (ragSearch envEmbedFails none none true (("mistral").toList)).citations =
      Json.arr []
    ∧ (ragSearch envEmbedFails none none true (("mistral").toList)).sources =
      [] :=
  (response_assembly_invariant envEmbedFails none none true
    (("mistral").toList)).1 rfl
